import Mathlib

/-
Verification of the `ptr` crate (ConstPtr / MutPtr / SmartPtr).

The development shallowly embeds the crate:
  * `RcModel` embeds `SmartPtr<T>` from src/src/lib.rs.  Machine pointers are
    modelled as `Option Nat`: `none` is the null pointer and `some i` points at
    heap cell `i`.  The two independent allocations a family owns (the payload
    `Box<T>` and the counter `Box<usize>`) live in two index-addressed stores;
    a cell is `live` until the corresponding `Box::from_raw` drops it, after
    which it is `freed`.  A ghost field `frees` counts how many times a payload
    allocation has been handed back to the allocator, so that "freed exactly
    once" is observable.  Reads through dangling or null pointers are undefined
    behaviour in the source; the model returns `none` (for `Option`-valued
    reads) or the junk value `0` (for `rcVal`), and every theorem's hypotheses
    keep the reads it performs on live cells.
  * `LibRs` embeds the `ConstPtr` / `MutPtr` wrappers of src/src/lib.rs, and
    `PtrRs` the wrappers of src/ptr.rs, with raw addresses as `Nat` and `0` as
    the null address, so that `is_null` and comparison against `ptr::null()`
    can be stated separately.
  * `Mature` models, from the specification's words alone, the extended
    design (extracted-flag cell and `localize`) that is absent from src/.
-/

namespace RcModel

/-- A machine pointer in the model: `none` is the null pointer, `some i`
points at heap cell `i`.  Models the `*mut T` held by a `MutPtr<T>` field. -/
abbrev Addr := Option Nat

/-- One heap allocation: `live a` while the `Box` has been leaked and not yet
reclaimed, `freed` after `Box::from_raw` dropped it. -/
inductive Cell (A : Type) where
  | live (a : A)
  | freed
deriving DecidableEq

/-- The store of allocations a program run has made: payload cells (`Box<T>`)
and counter cells (`Box<usize>`) are independent allocations, kept in two
index-addressed lists.  `frees` is a ghost counter of how many times a payload
allocation has been given back (`Box::from_raw` on the payload pointer). -/
structure Heap (T : Type) where
  payloads : List (Cell T)
  counters : List (Cell Nat)
  frees : Nat
deriving DecidableEq

/-- The empty heap, before any allocation. -/
def Heap.empty {T : Type} : Heap T := ⟨[], [], 0⟩

/-- `SmartPtr<T>` (src/src/lib.rs lines 185-188): exactly two fields,
`ptr: MutPtr<T>` and `rc: MutPtr<usize>`, each modelled by the address it
stores. -/
structure SmartPtr where
  ptr : Addr
  rc : Addr
deriving DecidableEq

variable {T : Type}

/-- The counter cell `p.rc` points to, when the pointer is non-null and the
address is one the model has allocated. -/
def Heap.counterCell (h : Heap T) (p : SmartPtr) : Option (Cell Nat) :=
  p.rc.bind fun j => h.counters[j]?

/-- The payload cell `p.ptr` points to. -/
def Heap.payloadCell (h : Heap T) (p : SmartPtr) : Option (Cell T) :=
  p.ptr.bind fun i => h.payloads[i]?

/-- The read `*self.rc` (defined when the counter cell is live; a null or
dangling read is undefined behaviour in the source and returns the junk value
0 here, which no theorem relies on). -/
def Heap.rcVal (h : Heap T) (p : SmartPtr) : Nat :=
  match h.counterCell p with
  | some (.live n) => n
  | _ => 0

/-- `SmartPtr::access` / the payload read `&*self.ptr`: `none` models the
undefined-behaviour cases (null or dangling pointer). -/
def Heap.access (h : Heap T) (p : SmartPtr) : Option T :=
  match h.payloadCell p with
  | some (.live v) => some v
  | _ => none

/-- The write `*self.rc = n` through the counter pointer. -/
def Heap.writeRc (h : Heap T) (p : SmartPtr) (n : Nat) : Heap T :=
  match p.rc with
  | some j => { h with counters := h.counters.set j (.live n) }
  | none => h

/-- A mutation of the payload performed through `SmartPtr::access_mut`
(the write `*self.ptr = v`). -/
def Heap.writePayload (h : Heap T) (p : SmartPtr) (v : T) : Heap T :=
  match p.ptr with
  | some i => { h with payloads := h.payloads.set i (.live v) }
  | none => h

/-- `Box::from_raw(self.ptr.raw())` dropping the payload allocation; bumps the
ghost free counter. -/
def Heap.freePayload (h : Heap T) (p : SmartPtr) : Heap T :=
  match p.ptr with
  | some i => { h with payloads := h.payloads.set i .freed, frees := h.frees + 1 }
  | none => h

/-- `Box::from_raw(self.rc.raw())` dropping the counter allocation. -/
def Heap.freeCounter (h : Heap T) (p : SmartPtr) : Heap T :=
  match p.rc with
  | some j => { h with counters := h.counters.set j .freed }
  | none => h

/-- `SmartPtr::new` (src/src/lib.rs lines 191-196): leak a fresh payload box,
leak a fresh counter box holding 1, return the handle to both.  `Box::leak`
never returns null, so both addresses are `some`. -/
def SmartPtr.new (h : Heap T) (v : T) : Heap T × SmartPtr :=
  ({ h with
      payloads := h.payloads ++ [.live v]
      counters := h.counters ++ [.live 1] },
   { ptr := some h.payloads.length, rc := some h.counters.length })

/-- `SmartPtr::valid` (src/src/lib.rs lines 198-200):
`self.ptr.present() && self.rc.present() && *self.rc > 0`. -/
def SmartPtr.valid (p : SmartPtr) (h : Heap T) : Bool :=
  p.ptr.isSome && (p.rc.isSome && decide (0 < h.rcVal p))

/-- `Clone for SmartPtr` (src/src/lib.rs lines 256-265): copy both pointers and
increment the shared counter through `rc`. -/
def SmartPtr.clone (h : Heap T) (p : SmartPtr) : Heap T × SmartPtr :=
  (h.writeRc p (h.rcVal p + 1), p)

/-- `Drop for SmartPtr` (src/src/lib.rs lines 229-241): when the handle is
valid, decrement the counter; when the counter then reads zero, reclaim the
payload box and the counter box. -/
def SmartPtr.drop (h : Heap T) (p : SmartPtr) : Heap T :=
  if p.valid h then
    let h1 := h.writeRc p (h.rcVal p - 1)
    if h1.rcVal p = 0 then (h1.freePayload p).freeCounter p else h1
  else h

/-- `Default for SmartPtr` (src/src/lib.rs lines 220-227), available only for
`T: Default`: `Self::new(T::default())`. -/
def SmartPtr.defaultMk [Inhabited T] (h : Heap T) : Heap T × SmartPtr :=
  SmartPtr.new h (Inhabited.default : T)

/-- `PartialEq for SmartPtr` (src/src/lib.rs lines 279-283):
`self.ptr.eq(other)` resolves through deref coercions to `T`'s equality applied
to the two payloads; `none` models the undefined-behaviour dereferences. -/
def SmartPtr.eq [DecidableEq T] (h : Heap T) (a b : SmartPtr) : Option Bool :=
  match h.access a, h.access b with
  | some va, some vb => some (decide (va = vb))
  | _, _ => none

/-- The `SmartPtr` struct of the code holds no extracted-flag-cell reference:
its only fields are `ptr` and `rc` (src/src/lib.rs lines 185-188).  The
reference the specification speaks of therefore does not exist on any handle;
as an address it is never non-null. -/
def SmartPtr.extractedFlagRef (_ : SmartPtr) : Addr := none

/-- One event in the life of a family: some handle is cloned, or some handle
is released (its `Drop` glue runs).  In the model all handles of one family
are the identical pair of addresses, so an interleaving across handles is a
list of these events applied to that pair. -/
inductive FamOp where
  | clone
  | release
deriving DecidableEq

/-- Number of clone events in a trace. -/
def clones : List FamOp → Nat
  | [] => 0
  | .clone :: r => clones r + 1
  | .release :: r => clones r

/-- Number of release events in a trace. -/
def releases : List FamOp → Nat
  | [] => 0
  | .clone :: r => releases r
  | .release :: r => releases r + 1

/-- A trace is well formed for a family that currently has `n` unreleased
handles when every event happens while at least one handle is still live and
no handle is released twice: before each event the live count is positive, a
clone raises it by one and a release lowers it by one. -/
def wf : Nat → List FamOp → Bool
  | _, [] => true
  | n, .clone :: r => decide (0 < n) && wf (n + 1) r
  | n, .release :: r => decide (0 < n) && wf (n - 1) r

/-- Run a trace of clone and release events on family `p`. -/
def runOps (h : Heap T) (p : SmartPtr) : List FamOp → Heap T
  | [] => h
  | .clone :: r => runOps (SmartPtr.clone h p).1 p r
  | .release :: r => runOps (SmartPtr.drop h p) p r

/-- The family invariant: `p`'s counter cell is live holding `n` and its
payload cell is live holding `v`. -/
def FamInv (h : Heap T) (p : SmartPtr) (n : Nat) (v : T) : Prop :=
  h.counterCell p = some (.live n) ∧ h.payloadCell p = some (.live v)

end RcModel

/-- A flat view of process memory as the raw wrapper types see it: the value a
dereference of address `a` would observe, `none` when nothing live is there. -/
def Memory (T : Type) : Type := Nat → Option T

namespace LibRs

/-- `ConstPtr<T>` of src/src/lib.rs (line 13): a bare `*const T`, modelled by
its address; `0` is the null address. -/
structure ConstPtr where
  addr : Nat
deriving DecidableEq

/-- `MutPtr<T>` of src/src/lib.rs (line 88): a bare `*mut T`. -/
structure MutPtr where
  addr : Nat
deriving DecidableEq

/-- `Default for ConstPtr` (src/src/lib.rs lines 15-19): `Self(ptr::null())`. -/
def ConstPtr.default : ConstPtr := ⟨0⟩

/-- `ConstPtr::new(t: &T)` (lines 22-24): wraps the address of a live value. -/
def ConstPtr.new (a : Nat) : ConstPtr := ⟨a⟩

/-- `ConstPtr::raw` (lines 26-28). -/
def ConstPtr.raw (p : ConstPtr) : Nat := p.addr

/-- `ConstPtr::null` (lines 30-32): `self.0.is_null()`, i.e. the stored
address is the null address. -/
def ConstPtr.null (p : ConstPtr) : Bool := p.addr == 0

/-- `ConstPtr::present` (lines 34-36): `!self.null()`. -/
def ConstPtr.present (p : ConstPtr) : Bool := !p.null

/-- `ConstPtr::clear` (lines 38-41): the body is the single field write
`self.0 = ptr::null()`; it touches no memory, which the state-transformer
form makes explicit. -/
def ConstPtr.clear {T : Type} (_ : ConstPtr) (m : Memory T) : ConstPtr × Memory T :=
  (⟨0⟩, m)

/-- `Clone for ConstPtr` (lines 49-53): `*self` (the type is `Copy`). -/
def ConstPtr.clone (p : ConstPtr) : ConstPtr := p

/-- `Deref for ConstPtr` (lines 57-62): `unsafe { &*self.0 }`; `none` models
the undefined-behaviour dereferences (null or dead address). -/
def ConstPtr.deref {T : Type} (m : Memory T) (p : ConstPtr) : Option T := m p.addr

/-- `Default for MutPtr` (lines 90-94): `Self(ptr::null_mut())`. -/
def MutPtr.default : MutPtr := ⟨0⟩

/-- `MutPtr::new(t: &mut T)` (lines 104-107). -/
def MutPtr.new (a : Nat) : MutPtr := ⟨a⟩

/-- `MutPtr::raw` (lines 109-111). -/
def MutPtr.raw (p : MutPtr) : Nat := p.addr

/-- `MutPtr::null` (lines 113-115): `self.0.is_null()`. -/
def MutPtr.null (p : MutPtr) : Bool := p.addr == 0

/-- `MutPtr::present` (lines 117-119): `!self.null()`. -/
def MutPtr.present (p : MutPtr) : Bool := !p.null

/-- `MutPtr::clear` (lines 121-124): `self.0 = ptr::null_mut()`; no memory
write. -/
def MutPtr.clear {T : Type} (_ : MutPtr) (m : Memory T) : MutPtr × Memory T :=
  (⟨0⟩, m)

/-- `Clone for MutPtr` (lines 96-100): `*self`. -/
def MutPtr.clone (p : MutPtr) : MutPtr := p

/-- `Deref for MutPtr` (lines 138-143). -/
def MutPtr.deref {T : Type} (m : Memory T) (p : MutPtr) : Option T := m p.addr

/-- `From<MutPtr<T>> for ConstPtr<T>` (lines 64-68): `Self(ptr.raw())`. -/
def ConstPtr.fromMut (q : MutPtr) : ConstPtr := ⟨q.raw⟩

end LibRs

namespace PtrRs

/-- The address of `ptr::null()` / `ptr::null_mut()`. -/
def nullAddr : Nat := 0

/-- `ConstPtr<T>` of src/ptr.rs (line 12). -/
structure ConstPtr where
  addr : Nat
deriving DecidableEq

/-- `MutPtr<T>` of src/ptr.rs (line 73). -/
structure MutPtr where
  addr : Nat
deriving DecidableEq

/-- `Default for ConstPtr` (src/ptr.rs lines 14-18): `Self(ptr::null())`. -/
def ConstPtr.default : ConstPtr := ⟨nullAddr⟩

/-- `ConstPtr::new(t: &T)` (lines 21-23). -/
def ConstPtr.new (a : Nat) : ConstPtr := ⟨a⟩

/-- `ConstPtr::raw` (lines 25-27). -/
def ConstPtr.raw (p : ConstPtr) : Nat := p.addr

/-- `ConstPtr::null` (lines 29-31): `self.0 == ptr::null()`, an address
comparison against the null pointer. -/
def ConstPtr.null (p : ConstPtr) : Bool := p.addr == nullAddr

/-- `Clone for ConstPtr` (lines 40-44): `Self(self.0)`. -/
def ConstPtr.clone (p : ConstPtr) : ConstPtr := ⟨p.addr⟩

/-- `Deref for ConstPtr` (lines 48-53). -/
def ConstPtr.deref {T : Type} (m : Memory T) (p : ConstPtr) : Option T := m p.addr

/-- `Default for MutPtr` (lines 75-79): `Self(ptr::null_mut())`. -/
def MutPtr.default : MutPtr := ⟨nullAddr⟩

/-- `MutPtr::new(t: &mut T)` (lines 89-92). -/
def MutPtr.new (a : Nat) : MutPtr := ⟨a⟩

/-- `MutPtr::raw` (lines 94-96). -/
def MutPtr.raw (p : MutPtr) : Nat := p.addr

/-- `MutPtr::null` (lines 98-100): `self.0 == ptr::null_mut()`. -/
def MutPtr.null (p : MutPtr) : Bool := p.addr == nullAddr

/-- `Clone for MutPtr` (lines 81-85): `Self(self.0)`. -/
def MutPtr.clone (p : MutPtr) : MutPtr := ⟨p.addr⟩

/-- `Deref for MutPtr` (lines 115-120). -/
def MutPtr.deref {T : Type} (m : Memory T) (p : MutPtr) : Option T := m p.addr

/-- `From<MutPtr<T>> for ConstPtr<T>` (lines 55-59): `Self(ptr.raw())`. -/
def ConstPtr.fromMut (q : MutPtr) : ConstPtr := ⟨q.raw⟩

/-- The evident correspondence between the two `ConstPtr` versions: they both
hold one bare address. -/
def ConstPtr.toLib (p : ConstPtr) : LibRs.ConstPtr := ⟨p.addr⟩

/-- The evident correspondence between the two `MutPtr` versions. -/
def MutPtr.toLib (q : MutPtr) : LibRs.MutPtr := ⟨q.addr⟩

end PtrRs

namespace Mature

/-- Modelled from the spec: the mature-design `SmartPtr` (spec §3, §4.2-4.3),
absent from src/, additionally carries a reference to a heap-allocated,
family-shared "already extracted" boolean flag cell. -/
structure MSmartPtr where
  ptr : RcModel.Addr
  rc : RcModel.Addr
  flag : RcModel.Addr
deriving DecidableEq

/-- Modelled from the spec: the heap for the mature design, with the third,
extracted-flag store; `frees` again counts payload-allocation teardowns. -/
structure MHeap (T : Type) where
  payloads : List (RcModel.Cell T)
  counters : List (RcModel.Cell Nat)
  flags : List (RcModel.Cell Bool)
  frees : Nat
deriving DecidableEq

/-- The empty mature heap. -/
def MHeap.empty {T : Type} : MHeap T := ⟨[], [], [], 0⟩

variable {T : Type}

/-- The counter cell of the family, as the mature design reads it. -/
def MHeap.counterCell (h : MHeap T) (p : MSmartPtr) : Option (RcModel.Cell Nat) :=
  p.rc.bind fun j => h.counters[j]?

/-- The payload cell of the family. -/
def MHeap.payloadCell (h : MHeap T) (p : MSmartPtr) : Option (RcModel.Cell T) :=
  p.ptr.bind fun i => h.payloads[i]?

/-- The extracted-flag cell of the family. -/
def MHeap.flagCell (h : MHeap T) (p : MSmartPtr) : Option (RcModel.Cell Bool) :=
  p.flag.bind fun k => h.flags[k]?

/-- The counter's current value (junk 0 on an undefined-behaviour read). -/
def MHeap.rcVal (h : MHeap T) (p : MSmartPtr) : Nat :=
  match h.counterCell p with
  | some (.live n) => n
  | _ => 0

/-- The extracted flag's current value (junk false on an undefined read). -/
def MHeap.flagVal (h : MHeap T) (p : MSmartPtr) : Bool :=
  match h.flagCell p with
  | some (.live b) => b
  | _ => false

/-- Write the counter through the handle. -/
def MHeap.writeRc (h : MHeap T) (p : MSmartPtr) (n : Nat) : MHeap T :=
  match p.rc with
  | some j => { h with counters := h.counters.set j (.live n) }
  | none => h

/-- Set the shared extracted flag. -/
def MHeap.setFlag (h : MHeap T) (p : MSmartPtr) (b : Bool) : MHeap T :=
  match p.flag with
  | some k => { h with flags := h.flags.set k (.live b) }
  | none => h

/-- Tear down the payload allocation; bumps the ghost free counter. -/
def MHeap.freePayload (h : MHeap T) (p : MSmartPtr) : MHeap T :=
  match p.ptr with
  | some i => { h with payloads := h.payloads.set i .freed, frees := h.frees + 1 }
  | none => h

/-- Free the counter allocation. -/
def MHeap.freeCounter (h : MHeap T) (p : MSmartPtr) : MHeap T :=
  match p.rc with
  | some j => { h with counters := h.counters.set j .freed }
  | none => h

/-- Free the extracted-flag allocation. -/
def MHeap.freeFlag (h : MHeap T) (p : MSmartPtr) : MHeap T :=
  match p.flag with
  | some k => { h with flags := h.flags.set k .freed }
  | none => h

/-- Modelled from the spec: `new(value)` of the mature design (§4.2) —
allocates the payload cell, a counter cell initialized to 1, and an
extracted-flag cell initialized to false. -/
def new (h : MHeap T) (v : T) : MHeap T × MSmartPtr :=
  ({ payloads := h.payloads ++ [.live v]
     counters := h.counters ++ [.live 1]
     flags := h.flags ++ [.live false]
     frees := h.frees },
   { ptr := some h.payloads.length
     rc := some h.counters.length
     flag := some h.flags.length })

/-- Modelled from the spec: `valid()` of the mature design (§4.2) — all three
cell references non-null and the counter strictly positive. -/
def valid (p : MSmartPtr) (h : MHeap T) : Bool :=
  p.ptr.isSome && (p.rc.isSome && (p.flag.isSome && decide (0 < h.rcVal p)))

/-- Modelled from the spec: release of the mature design (§4.3) — decrement
the counter; when it reaches zero, free the payload cell unless the extracted
flag is set, then free the counter cell and the extracted-flag cell.  A
release of an invalid handle is a no-op. -/
def release (h : MHeap T) (p : MSmartPtr) : MHeap T :=
  if valid p h then
    let h1 := h.writeRc p (h.rcVal p - 1)
    if h1.rcVal p = 0 then
      let h2 := if h1.flagVal p then h1 else h1.freePayload p
      (h2.freeCounter p).freeFlag p
    else h1
  else h

/-- Modelled from the spec: `localize()` (§4.3), absent from src/ — consumes
the handle: it sets the shared extracted flag to true and moves the payload
value out of the payload cell (the one teardown of the payload allocation),
and then the consuming handle's own teardown path runs, sees the flag set and
skips the payload free. -/
def localize (h : MHeap T) (p : MSmartPtr) : Option T × MHeap T :=
  match p.ptr.bind fun i => h.payloads[i]? with
  | some (.live v) =>
    let h1 :=
      match p.ptr with
      | some i => { h with payloads := h.payloads.set i .freed, frees := h.frees + 1 }
      | none => h
    (some v, release (h1.setFlag p true) p)
  | _ => (none, h)

end Mature

namespace RcModel

variable {T : Type}

theorem counterCell_some {h : Heap T} {p : SmartPtr} {c : Cell Nat}
    (hc : h.counterCell p = some c) :
    ∃ j, p.rc = some j ∧ j < h.counters.length ∧ h.counters[j]? = some c := by
  cases hj : p.rc with
  | none => rw [Heap.counterCell, hj] at hc; exact absurd hc (by simp)
  | some j =>
    rw [Heap.counterCell, hj] at hc
    simp only [Option.some_bind] at hc
    exact ⟨j, rfl, (List.getElem?_eq_some.mp hc).1, hc⟩

theorem payloadCell_some {h : Heap T} {p : SmartPtr} {c : Cell T}
    (hp : h.payloadCell p = some c) :
    ∃ i, p.ptr = some i ∧ i < h.payloads.length ∧ h.payloads[i]? = some c := by
  cases hi : p.ptr with
  | none => rw [Heap.payloadCell, hi] at hp; exact absurd hp (by simp)
  | some i =>
    rw [Heap.payloadCell, hi] at hp
    simp only [Option.some_bind] at hp
    exact ⟨i, rfl, (List.getElem?_eq_some.mp hp).1, hp⟩

theorem rcVal_of_counterCell {h : Heap T} {p : SmartPtr} {n : Nat}
    (hc : h.counterCell p = some (.live n)) : h.rcVal p = n := by
  rw [Heap.rcVal, hc]

theorem counterCell_of_rcVal_pos {h : Heap T} {p : SmartPtr}
    (hn : 0 < h.rcVal p) : h.counterCell p = some (.live (h.rcVal p)) := by
  rw [Heap.rcVal] at hn ⊢
  match hc : h.counterCell p with
  | some (.live m) => rfl
  | some .freed => rw [hc] at hn; exact absurd hn (by simp)
  | none => rw [hc] at hn; exact absurd hn (by simp)

theorem counterCell_writeRc {h : Heap T} {p : SmartPtr} {c : Cell Nat}
    (hc : h.counterCell p = some c) (n : Nat) :
    (h.writeRc p n).counterCell p = some (.live n) := by
  obtain ⟨j, hj, hlt, _⟩ := counterCell_some hc
  rw [Heap.writeRc, hj, Heap.counterCell, hj]
  simp only [Option.some_bind]
  exact List.getElem?_set_eq_of_lt _ (by simpa using hlt)

theorem payloadCell_writeRc (h : Heap T) (p q : SmartPtr) (n : Nat) :
    (h.writeRc p n).payloadCell q = h.payloadCell q := by
  cases hj : p.rc <;> rw [Heap.writeRc, hj] <;> rfl

theorem access_writeRc (h : Heap T) (p q : SmartPtr) (n : Nat) :
    (h.writeRc p n).access q = h.access q := by
  rw [Heap.access, Heap.access, payloadCell_writeRc]

theorem frees_writeRc (h : Heap T) (p : SmartPtr) (n : Nat) :
    (h.writeRc p n).frees = h.frees := by
  cases hj : p.rc <;> rw [Heap.writeRc, hj]

theorem counterCell_freePayload (h : Heap T) (p q : SmartPtr) :
    (h.freePayload p).counterCell q = h.counterCell q := by
  cases hi : p.ptr <;> rw [Heap.freePayload, hi] <;> rfl

theorem payloadCell_freePayload_self {h : Heap T} {p : SmartPtr} {c : Cell T}
    (hp : h.payloadCell p = some c) :
    (h.freePayload p).payloadCell p = some .freed := by
  obtain ⟨i, hi, hlt, _⟩ := payloadCell_some hp
  rw [Heap.freePayload, hi, Heap.payloadCell, hi]
  simp only [Option.some_bind]
  exact List.getElem?_set_eq_of_lt _ (by simpa using hlt)

theorem frees_freePayload {h : Heap T} {p : SmartPtr} {i : Nat}
    (hi : p.ptr = some i) : (h.freePayload p).frees = h.frees + 1 := by
  rw [Heap.freePayload, hi]

theorem counterCell_freeCounter_self {h : Heap T} {p : SmartPtr} {c : Cell Nat}
    (hc : h.counterCell p = some c) :
    (h.freeCounter p).counterCell p = some .freed := by
  obtain ⟨j, hj, hlt, _⟩ := counterCell_some hc
  rw [Heap.freeCounter, hj, Heap.counterCell, hj]
  simp only [Option.some_bind]
  exact List.getElem?_set_eq_of_lt _ (by simpa using hlt)

theorem payloadCell_freeCounter (h : Heap T) (p q : SmartPtr) :
    (h.freeCounter p).payloadCell q = h.payloadCell q := by
  cases hj : p.rc <;> rw [Heap.freeCounter, hj] <;> rfl

theorem frees_freeCounter (h : Heap T) (p : SmartPtr) :
    (h.freeCounter p).frees = h.frees := by
  cases hj : p.rc <;> rw [Heap.freeCounter, hj]

theorem valid_of_inv {h : Heap T} {p : SmartPtr} {n : Nat} {v : T}
    (hin : FamInv h p n v) (hn : 0 < n) : p.valid h = true := by
  obtain ⟨hc, hp⟩ := hin
  obtain ⟨j, hj, _, _⟩ := counterCell_some hc
  obtain ⟨i, hi, _, _⟩ := payloadCell_some hp
  rw [SmartPtr.valid, hj, hi, rcVal_of_counterCell hc]
  simpa using hn

theorem new_inv (h : Heap T) (v : T) :
    FamInv (SmartPtr.new h v).1 (SmartPtr.new h v).2 1 v ∧
      (SmartPtr.new h v).1.frees = h.frees := by
  refine ⟨⟨?_, ?_⟩, rfl⟩
  · rw [SmartPtr.new, Heap.counterCell]
    simp only [Option.some_bind]
    exact List.getElem?_concat_length _ _
  · rw [SmartPtr.new, Heap.payloadCell]
    simp only [Option.some_bind]
    exact List.getElem?_concat_length _ _

theorem clone_inv {h : Heap T} {p : SmartPtr} {n : Nat} {v : T}
    (hin : FamInv h p n v) :
    FamInv (SmartPtr.clone h p).1 p (n + 1) v ∧
      (SmartPtr.clone h p).1.frees = h.frees ∧ (SmartPtr.clone h p).2 = p := by
  obtain ⟨hc, hp⟩ := hin
  rw [SmartPtr.clone, rcVal_of_counterCell hc]
  exact ⟨⟨counterCell_writeRc hc _, (payloadCell_writeRc ..).trans hp⟩,
    frees_writeRc .., rfl⟩

theorem drop_of_one_lt {h : Heap T} {p : SmartPtr} {n : Nat} {v : T}
    (hin : FamInv h p n v) (hn : 1 < n) :
    SmartPtr.drop h p = h.writeRc p (n - 1) ∧
      FamInv (h.writeRc p (n - 1)) p (n - 1) v ∧
      (h.writeRc p (n - 1)).frees = h.frees := by
  obtain ⟨hc, hp⟩ := hin
  have hinv : FamInv (h.writeRc p (n - 1)) p (n - 1) v :=
    ⟨counterCell_writeRc hc _, (payloadCell_writeRc ..).trans hp⟩
  refine ⟨?_, hinv, frees_writeRc ..⟩
  rw [SmartPtr.drop, if_pos (valid_of_inv ⟨hc, hp⟩ (by omega)),
    rcVal_of_counterCell hc]
  simp only
  rw [if_neg]
  rw [rcVal_of_counterCell hinv.1]
  omega

theorem drop_of_one {h : Heap T} {p : SmartPtr} {v : T}
    (hin : FamInv h p 1 v) :
    (SmartPtr.drop h p).counterCell p = some .freed ∧
      (SmartPtr.drop h p).payloadCell p = some .freed ∧
      (SmartPtr.drop h p).frees = h.frees + 1 := by
  obtain ⟨hc, hp⟩ := hin
  obtain ⟨i, hi, _, _⟩ := payloadCell_some hp
  have hc1 : (h.writeRc p 0).counterCell p = some (.live 0) :=
    counterCell_writeRc hc 0
  have hp1 : (h.writeRc p 0).payloadCell p = some (.live v) :=
    (payloadCell_writeRc ..).trans hp
  have hdrop : SmartPtr.drop h p = ((h.writeRc p 0).freePayload p).freeCounter p := by
    rw [SmartPtr.drop, if_pos (valid_of_inv ⟨hc, hp⟩ Nat.one_pos),
      rcVal_of_counterCell hc]
    simp only
    rw [if_pos (rcVal_of_counterCell hc1)]
  have hc2 : ((h.writeRc p 0).freePayload p).counterCell p = some (.live 0) :=
    (counterCell_freePayload ..).trans hc1
  refine ⟨?_, ?_, ?_⟩
  · rw [hdrop]
    exact counterCell_freeCounter_self hc2
  · rw [hdrop, payloadCell_freeCounter]
    exact payloadCell_freePayload_self hp1
  · rw [hdrop, frees_freeCounter, frees_freePayload hi, frees_writeRc]

theorem wf_zero {ops : List FamOp} (hwf : wf 0 ops = true) : ops = [] := by
  cases ops with
  | nil => rfl
  | cons op r => cases op <;> simp [wf] at hwf

theorem releases_le_of_wf :
    ∀ (ops : List FamOp) (n : Nat), wf n ops = true → releases ops ≤ n + clones ops := by
  intro ops
  induction ops with
  | nil => intro n _; simp [releases]
  | cons op r ih =>
    intro n hwf
    cases op with
    | clone =>
      rw [wf, Bool.and_eq_true] at hwf
      have := ih (n + 1) hwf.2
      simp only [clones, releases]
      omega
    | release =>
      rw [wf, Bool.and_eq_true, decide_eq_true_iff] at hwf
      have := ih (n - 1) hwf.2
      simp only [clones, releases]
      omega

/-- The heart of the count-accounting and deferred-destruction claims: running
a well-formed trace on a family whose counter is live at `n` and whose payload
is live at `v` leaves the counter at the number of still-unreleased handles;
while that number is positive nothing has been freed, and when it hits zero
both cells have been reclaimed with the payload allocation freed exactly
once. -/
theorem runOps_trace :
    ∀ (ops : List FamOp) (h : Heap T) (p : SmartPtr) (n : Nat) (v : T),
    0 < n → FamInv h p n v → wf n ops = true →
    (0 < n + clones ops - releases ops →
      FamInv (runOps h p ops) p (n + clones ops - releases ops) v ∧
        (runOps h p ops).frees = h.frees) ∧
    (n + clones ops - releases ops = 0 →
      (runOps h p ops).counterCell p = some .freed ∧
        (runOps h p ops).payloadCell p = some .freed ∧
        (runOps h p ops).frees = h.frees + 1) := by
  intro ops
  induction ops with
  | nil =>
    intro h p n v hn hin _
    simp only [clones, releases, runOps, Nat.add_zero, Nat.sub_zero]
    exact ⟨fun _ => ⟨hin, by trivial⟩, fun h0 => absurd h0 (by omega)⟩
  | cons op r ih =>
    intro h p n v hn hin hwf
    cases op with
    | clone =>
      rw [wf, Bool.and_eq_true] at hwf
      obtain ⟨hin1, hfr1, _⟩ := clone_inv hin
      have := ih (SmartPtr.clone h p).1 p (n + 1) v (by omega) hin1 hwf.2
      simp only [clones, releases, runOps]
      have harith : n + 1 + clones r - releases r = n + (clones r + 1) - releases r := by
        omega
      rw [harith] at this
      exact ⟨fun hm => ⟨(this.1 hm).1, (this.1 hm).2.trans hfr1⟩,
        fun hm => ⟨(this.2 hm).1, (this.2 hm).2.1, by rw [(this.2 hm).2.2, hfr1]⟩⟩
    | release =>
      rw [wf, Bool.and_eq_true, decide_eq_true_iff] at hwf
      by_cases h1 : n = 1
      · subst h1
        have hr : r = [] := wf_zero hwf.2
        subst hr
        obtain ⟨hcd, hpd, hfd⟩ := drop_of_one hin
        simp only [clones, releases, runOps]
        exact ⟨fun hm => absurd hm (by omega), fun _ => ⟨hcd, hpd, hfd⟩⟩
      · obtain ⟨hd, hin1, hfr1⟩ := drop_of_one_lt hin (by omega)
        have := ih (SmartPtr.drop h p) p (n - 1) v (by omega) (hd ▸ hin1) hwf.2
        simp only [clones, releases, runOps]
        have harith : n - 1 + clones r - releases r = n + clones r - (releases r + 1) := by
          omega
        rw [harith] at this
        have hfr : (SmartPtr.drop h p).frees = h.frees := by rw [hd]; exact hfr1
        exact ⟨fun hm => ⟨(this.1 hm).1, (this.1 hm).2.trans hfr⟩,
          fun hm => ⟨(this.2 hm).1, (this.2 hm).2.1, by rw [(this.2 hm).2.2, hfr]⟩⟩

theorem clones_append (xs ys : List FamOp) :
    clones (xs ++ ys) = clones xs + clones ys := by
  induction xs with
  | nil => simp [clones]
  | cons op r ih => cases op <;> simp [clones, ih] <;> omega

theorem releases_append (xs ys : List FamOp) :
    releases (xs ++ ys) = releases xs + releases ys := by
  induction xs with
  | nil => simp [releases]
  | cons op r ih => cases op <;> simp [releases, ih] <;> omega

theorem clones_replicate_clone (k : Nat) :
    clones (List.replicate k .clone) = k := by
  induction k with
  | zero => rfl
  | succ k ih => rw [List.replicate_succ, clones, ih]

theorem releases_replicate_clone (k : Nat) :
    releases (List.replicate k .clone) = 0 := by
  induction k with
  | zero => rfl
  | succ k ih => rw [List.replicate_succ, releases, ih]

theorem clones_replicate_release (k : Nat) :
    clones (List.replicate k .release) = 0 := by
  induction k with
  | zero => rfl
  | succ k ih => rw [List.replicate_succ, clones, ih]

theorem releases_replicate_release (k : Nat) :
    releases (List.replicate k .release) = k := by
  induction k with
  | zero => rfl
  | succ k ih => rw [List.replicate_succ, releases, ih]

theorem wf_replicate_clone :
    ∀ (k n : Nat), 0 < n → wf n (List.replicate k .clone) = true := by
  intro k
  induction k with
  | zero => intro n _; rfl
  | succ k ih =>
    intro n hn
    rw [List.replicate_succ, wf, Bool.and_eq_true]
    exact ⟨by simpa using hn, ih (n + 1) (by omega)⟩

theorem wf_replicate_release :
    ∀ (k n : Nat), k ≤ n → wf n (List.replicate k .release) = true := by
  intro k
  induction k with
  | zero => intro n _; rfl
  | succ k ih =>
    intro n hk
    rw [List.replicate_succ, wf, Bool.and_eq_true]
    exact ⟨by simp; omega, ih (n - 1) (by omega)⟩

theorem wf_append_of :
    ∀ (xs ys : List FamOp) (n : Nat), wf n xs = true →
      wf (n + clones xs - releases xs) ys = true → wf n (xs ++ ys) = true := by
  intro xs
  induction xs with
  | nil => intro ys n _ hys; simpa [clones, releases] using hys
  | cons op r ih =>
    intro ys n hx hy
    cases op with
    | clone =>
      rw [wf, Bool.and_eq_true] at hx
      rw [List.cons_append, wf, Bool.and_eq_true]
      refine ⟨hx.1, ih ys (n + 1) hx.2 ?_⟩
      have harith : n + 1 + clones r - releases r = n + clones (.clone :: r) - releases (.clone :: r) := by
        simp only [clones, releases]; omega
      rw [harith]
      exact hy
    | release =>
      rw [wf, Bool.and_eq_true] at hx
      have hn : 0 < n := by simpa using hx.1
      rw [List.cons_append, wf, Bool.and_eq_true]
      refine ⟨hx.1, ih ys (n - 1) hx.2 ?_⟩
      have harith : n - 1 + clones r - releases r = n + clones (.release :: r) - releases (.release :: r) := by
        simp only [clones, releases]; omega
      rw [harith]
      exact hy

theorem famInv_after_drain (h0 : Heap T) (v : T) (k : Nat) :
    FamInv (runOps (SmartPtr.new h0 v).1 (SmartPtr.new h0 v).2
        (List.replicate k .clone ++ List.replicate k .release))
      (SmartPtr.new h0 v).2 1 v := by
  obtain ⟨hin, -⟩ := new_inv h0 v
  have hwf2 : wf 1 (List.replicate k .clone ++ List.replicate k .release) = true := by
    apply wf_append_of
    · exact wf_replicate_clone k 1 Nat.one_pos
    · rw [clones_replicate_clone, releases_replicate_clone]
      exact wf_replicate_release k (1 + k - 0) (by omega)
  have htr := (runOps_trace _ _ _ 1 v Nat.one_pos hin hwf2).1
  rw [clones_append, releases_append, clones_replicate_clone, clones_replicate_release,
    releases_replicate_clone, releases_replicate_release] at htr
  have hm := htr (by omega)
  have harith : 1 + (k + 0) - (0 + k) = 1 := by omega
  rw [harith] at hm
  exact hm.1

/-- C1: for every family, the shared counter cell always equals the number of
live handles that have not yet released: it reads 1 immediately after `new`;
along any well-formed interleaving of clone and release events that leaves at
least one unreleased handle it reads `1 + clones - releases`; in particular
after `k` clones it reads `1 + k`, and after additionally releasing `k` of the
`k + 1` handles (all but one) it reads 1 and `valid()` is true for the
remaining handle. -/
theorem c1_count_accounting (h0 : Heap T) (v : T) (k : Nat) (ops : List FamOp)
    (hwf : wf 1 ops = true) (hrem : releases ops ≤ clones ops) :
    (SmartPtr.new h0 v).1.rcVal (SmartPtr.new h0 v).2 = 1 ∧
    (runOps (SmartPtr.new h0 v).1 (SmartPtr.new h0 v).2 ops).rcVal
        (SmartPtr.new h0 v).2 = 1 + clones ops - releases ops ∧
    (runOps (SmartPtr.new h0 v).1 (SmartPtr.new h0 v).2
        (List.replicate k .clone)).rcVal (SmartPtr.new h0 v).2 = 1 + k ∧
    (runOps (SmartPtr.new h0 v).1 (SmartPtr.new h0 v).2
        (List.replicate k .clone ++ List.replicate k .release)).rcVal
        (SmartPtr.new h0 v).2 = 1 ∧
    (SmartPtr.new h0 v).2.valid
      (runOps (SmartPtr.new h0 v).1 (SmartPtr.new h0 v).2
        (List.replicate k .clone ++ List.replicate k .release)) = true := by
  obtain ⟨hin, -⟩ := new_inv h0 v
  refine ⟨rcVal_of_counterCell hin.1, ?_, ?_, ?_, ?_⟩
  · have := (runOps_trace ops _ _ 1 v Nat.one_pos hin hwf).1 (by omega)
    exact rcVal_of_counterCell this.1.1
  · have hwfc := wf_replicate_clone k 1 Nat.one_pos
    have := (runOps_trace (List.replicate k .clone) _ _ 1 v Nat.one_pos hin hwfc).1
    rw [clones_replicate_clone, releases_replicate_clone] at this
    exact rcVal_of_counterCell (this (by omega)).1.1
  · have hm := famInv_after_drain h0 v k
    exact rcVal_of_counterCell hm.1
  · have hm := famInv_after_drain h0 v k
    exact valid_of_inv hm Nat.one_pos

theorem c1_count_accounting_witness :
    (wf 1 [FamOp.clone, FamOp.clone, FamOp.release] = true ∧
      releases [FamOp.clone, FamOp.clone, FamOp.release] ≤
        clones [FamOp.clone, FamOp.clone, FamOp.release]) ∧
    ((SmartPtr.new (Heap.empty : Heap Nat) 5).1.rcVal (SmartPtr.new (Heap.empty : Heap Nat) 5).2 = 1 ∧
    (runOps (SmartPtr.new (Heap.empty : Heap Nat) 5).1 (SmartPtr.new (Heap.empty : Heap Nat) 5).2
        [FamOp.clone, FamOp.clone, FamOp.release]).rcVal
        (SmartPtr.new (Heap.empty : Heap Nat) 5).2
      = 1 + clones [FamOp.clone, FamOp.clone, FamOp.release]
          - releases [FamOp.clone, FamOp.clone, FamOp.release] ∧
    (runOps (SmartPtr.new (Heap.empty : Heap Nat) 5).1 (SmartPtr.new (Heap.empty : Heap Nat) 5).2
        (List.replicate 2 .clone)).rcVal (SmartPtr.new (Heap.empty : Heap Nat) 5).2 = 1 + 2 ∧
    (runOps (SmartPtr.new (Heap.empty : Heap Nat) 5).1 (SmartPtr.new (Heap.empty : Heap Nat) 5).2
        (List.replicate 2 .clone ++ List.replicate 2 .release)).rcVal
        (SmartPtr.new (Heap.empty : Heap Nat) 5).2 = 1 ∧
    (SmartPtr.new (Heap.empty : Heap Nat) 5).2.valid
      (runOps (SmartPtr.new (Heap.empty : Heap Nat) 5).1 (SmartPtr.new (Heap.empty : Heap Nat) 5).2
        (List.replicate 2 .clone ++ List.replicate 2 .release)) = true) :=
  ⟨⟨by decide, by decide⟩,
    c1_count_accounting (Heap.empty : Heap Nat) 5 2
      [FamOp.clone, FamOp.clone, FamOp.release] (by decide) (by decide)⟩

/-- C4: along any well-formed interleaving of clone and release events on a
family, the payload allocation is torn down exactly once, and only by the
release that drains the family: the ghost free count rises by 1 exactly when
every handle has been released, the payload cell is still live (and no free
has happened) while some handle remains unreleased, and a release that leaves
the counter positive only decrements the counter, freeing nothing. -/
theorem c4_deferred_destruction (h0 : Heap T) (v : T) (ops : List FamOp)
    (hwf : wf 1 ops = true) :
    ((runOps (SmartPtr.new h0 v).1 (SmartPtr.new h0 v).2 ops).frees
        = h0.frees + if releases ops = 1 + clones ops then 1 else 0) ∧
    (releases ops < 1 + clones ops →
      (runOps (SmartPtr.new h0 v).1 (SmartPtr.new h0 v).2 ops).payloadCell
          (SmartPtr.new h0 v).2 = some (.live v) ∧
        (runOps (SmartPtr.new h0 v).1 (SmartPtr.new h0 v).2 ops).frees = h0.frees) ∧
    (∀ (g : Heap T) (q : SmartPtr), q.valid g = true → 1 < g.rcVal q →
      SmartPtr.drop g q = g.writeRc q (g.rcVal q - 1)) := by
  obtain ⟨hin, hfr⟩ := new_inv h0 v
  have hle := releases_le_of_wf ops 1 hwf
  have htr := runOps_trace ops _ _ 1 v Nat.one_pos hin hwf
  refine ⟨?_, ?_, ?_⟩
  · by_cases hdr : releases ops = 1 + clones ops
    · rw [if_pos hdr]
      have := (htr.2 (by omega)).2.2
      rw [this, hfr]
    · rw [if_neg hdr]
      have := (htr.1 (by omega)).2
      rw [this, hfr]
      omega
  · intro hlt
    have := htr.1 (by omega)
    exact ⟨this.1.2, this.2.trans hfr⟩
  · intro g q hval hgt
    have hc := counterCell_of_rcVal_pos (show 0 < g.rcVal q by omega)
    have hw : (g.writeRc q (g.rcVal q - 1)).counterCell q =
        some (.live (g.rcVal q - 1)) := counterCell_writeRc hc _
    rw [SmartPtr.drop, if_pos hval]
    simp only
    rw [if_neg]
    rw [rcVal_of_counterCell hw]
    omega

theorem c4_deferred_destruction_witness :
    (wf 1 [FamOp.clone, FamOp.release, FamOp.release] = true) ∧
    ((runOps (SmartPtr.new (Heap.empty : Heap Nat) 4).1 (SmartPtr.new (Heap.empty : Heap Nat) 4).2
        [FamOp.clone, FamOp.release, FamOp.release]).frees
      = (Heap.empty : Heap Nat).frees
        + if releases [FamOp.clone, FamOp.release, FamOp.release]
            = 1 + clones [FamOp.clone, FamOp.release, FamOp.release] then 1 else 0) ∧
    (releases [FamOp.clone, FamOp.release, FamOp.release]
        < 1 + clones [FamOp.clone, FamOp.release, FamOp.release] →
      (runOps (SmartPtr.new (Heap.empty : Heap Nat) 4).1 (SmartPtr.new (Heap.empty : Heap Nat) 4).2
          [FamOp.clone, FamOp.release, FamOp.release]).payloadCell
          (SmartPtr.new (Heap.empty : Heap Nat) 4).2 = some (.live 4) ∧
        (runOps (SmartPtr.new (Heap.empty : Heap Nat) 4).1 (SmartPtr.new (Heap.empty : Heap Nat) 4).2
          [FamOp.clone, FamOp.release, FamOp.release]).frees = (Heap.empty : Heap Nat).frees) ∧
    (∀ (g : Heap Nat) (q : SmartPtr), q.valid g = true → 1 < g.rcVal q →
      SmartPtr.drop g q = g.writeRc q (g.rcVal q - 1)) :=
  ⟨by decide,
    c4_deferred_destruction (Heap.empty : Heap Nat) 4
      [FamOp.clone, FamOp.release, FamOp.release] (by decide)⟩

/-- C5: releasing a handle that is already invalid (`valid()` is false at
release time) is a no-op: the `Drop` glue leaves the heap untouched, so the
counter is not decremented and nothing is freed through that handle. -/
theorem c5_invalid_release_noop (h : Heap T) (p : SmartPtr)
    (hinv : p.valid h = false) : SmartPtr.drop h p = h := by
  rw [SmartPtr.drop, hinv]
  rfl

theorem c5_invalid_release_noop_witness :
    (SmartPtr.valid ⟨none, none⟩ (Heap.empty : Heap Nat) = false) ∧
      SmartPtr.drop (Heap.empty : Heap Nat) ⟨none, none⟩ = (Heap.empty : Heap Nat) :=
  ⟨by decide, c5_invalid_release_noop (Heap.empty : Heap Nat) ⟨none, none⟩ (by decide)⟩

/-- C2 fails on the code: `Default for SmartPtr` is `Self::new(T::default())`
(src/src/lib.rs lines 220-227), so at `T = Nat` the freshly default-constructed
handle has a non-null payload wrapper and `valid()` returns true, where the
claim requires a null wrapper and `valid() == false`. -/
theorem c2_default_counterexample :
    (SmartPtr.defaultMk (Heap.empty : Heap Nat)).2.ptr ≠ none ∧
      (SmartPtr.defaultMk (Heap.empty : Heap Nat)).2.valid
        (SmartPtr.defaultMk (Heap.empty : Heap Nat)).1 = true := by
  decide

/-- C2 amended: default construction of a `SmartPtr` (available only when the
payload type itself has a default) delegates to `new(T::default())`: it
allocates a fresh one-handle family, so the payload wrapper is non-null, the
counter reads 1, and `valid()` is true on the freshly default-constructed
handle. -/
theorem c2_default_allocates [Inhabited T] (h : Heap T) :
    (SmartPtr.defaultMk h).2.ptr = some h.payloads.length ∧
      (SmartPtr.defaultMk h).1.rcVal (SmartPtr.defaultMk h).2 = 1 ∧
      (SmartPtr.defaultMk h).2.valid (SmartPtr.defaultMk h).1 = true := by
  obtain ⟨hin, -⟩ := new_inv h (Inhabited.default : T)
  exact ⟨rfl, rcVal_of_counterCell hin.1, valid_of_inv hin Nat.one_pos⟩

/-- C3 fails on the code: the `SmartPtr` struct holds no extracted-flag-cell
reference at all (its fields are exactly `ptr` and `rc`), so on the handle
produced by `new 0` the claimed equivalence is false: `valid()` is true while
"all three references non-null" fails for want of the third reference. -/
theorem c3_valid_counterexample :
    ¬ ((SmartPtr.new (Heap.empty : Heap Nat) 0).2.valid
          (SmartPtr.new (Heap.empty : Heap Nat) 0).1 = true ↔
        ((SmartPtr.new (Heap.empty : Heap Nat) 0).2.ptr.isSome = true ∧
          (SmartPtr.new (Heap.empty : Heap Nat) 0).2.rc.isSome = true ∧
          (SmartPtr.new (Heap.empty : Heap Nat) 0).2.extractedFlagRef.isSome = true ∧
          0 < (SmartPtr.new (Heap.empty : Heap Nat) 0).1.rcVal
            (SmartPtr.new (Heap.empty : Heap Nat) 0).2)) := by
  decide

/-- C3 amended: `valid()` returns true iff the payload-cell reference and the
counter-cell reference are both non-null and the counter's current value is
strictly greater than zero (the code's `SmartPtr` has no extracted-flag
cell). -/
theorem c3_valid_iff (h : Heap T) (p : SmartPtr) :
    p.valid h = true ↔
      (p.ptr.isSome = true ∧ p.rc.isSome = true ∧ 0 < h.rcVal p) := by
  simp [SmartPtr.valid]

/-- C7: a payload mutation made through one handle's `access_mut()` is
observable through `access()` of every other handle of the same family, and
handles produced by `clone` (whether taken before or after the mutation) are
the same pair of addresses and read the same payload, so they observe it
too. -/
theorem c7_shared_mutation (h : Heap T) (a b : SmartPtr) (v' : T) (i : Nat)
    (hfam : b.ptr = a.ptr) (hi : a.ptr = some i) (hlt : i < h.payloads.length) :
    (h.writePayload a v').access b = some v' ∧
      (∀ (g : Heap T) (q : SmartPtr), (SmartPtr.clone g q).2 = q ∧
        (SmartPtr.clone g q).1.access q = g.access q) := by
  constructor
  · have hpc : (h.writePayload a v').payloadCell b = some (.live v') := by
      rw [Heap.payloadCell, hfam, hi, Option.some_bind, Heap.writePayload, hi]
      exact List.getElem?_set_eq_of_lt _ (by simpa using hlt)
    rw [Heap.access, hpc]
  · intro g q
    exact ⟨rfl, access_writeRc ..⟩

theorem c7_shared_mutation_witness :
    ((SmartPtr.new (Heap.empty : Heap Nat) 7).2.ptr = (SmartPtr.new (Heap.empty : Heap Nat) 7).2.ptr ∧
      (SmartPtr.new (Heap.empty : Heap Nat) 7).2.ptr = some 0 ∧
      0 < (SmartPtr.new (Heap.empty : Heap Nat) 7).1.payloads.length) ∧
    (((SmartPtr.new (Heap.empty : Heap Nat) 7).1.writePayload
        (SmartPtr.new (Heap.empty : Heap Nat) 7).2 9).access
        (SmartPtr.new (Heap.empty : Heap Nat) 7).2 = some 9 ∧
      (∀ (g : Heap Nat) (q : SmartPtr), (SmartPtr.clone g q).2 = q ∧
        (SmartPtr.clone g q).1.access q = g.access q)) :=
  ⟨⟨rfl, by decide, by decide⟩,
    c7_shared_mutation (SmartPtr.new (Heap.empty : Heap Nat) 7).1
      (SmartPtr.new (Heap.empty : Heap Nat) 7).2
      (SmartPtr.new (Heap.empty : Heap Nat) 7).2 9 0 rfl (by decide) (by decide)⟩

/-- C8: equality of two live `SmartPtr` handles (of the same or of different
families) is exactly the payload type's own equality applied to the two
pointed-to values. -/
theorem c8_eq_delegates_to_payload [DecidableEq T] (h : Heap T)
    (a b : SmartPtr) (va vb : T)
    (ha : h.access a = some va) (hb : h.access b = some vb) :
    SmartPtr.eq h a b = some (decide (va = vb)) ∧
      (SmartPtr.eq h a b = some true ↔ va = vb) := by
  have he : SmartPtr.eq h a b = some (decide (va = vb)) := by
    rw [SmartPtr.eq, ha, hb]
  refine ⟨he, ?_⟩
  rw [he]
  simp

theorem c8_eq_delegates_to_payload_witness :
    ((SmartPtr.new (SmartPtr.new (Heap.empty : Heap Nat) 3).1 3).1.access
        (SmartPtr.new (Heap.empty : Heap Nat) 3).2 = some 3 ∧
      (SmartPtr.new (SmartPtr.new (Heap.empty : Heap Nat) 3).1 3).1.access
        (SmartPtr.new (SmartPtr.new (Heap.empty : Heap Nat) 3).1 3).2 = some 3) ∧
    (SmartPtr.eq (SmartPtr.new (SmartPtr.new (Heap.empty : Heap Nat) 3).1 3).1
        (SmartPtr.new (Heap.empty : Heap Nat) 3).2
        (SmartPtr.new (SmartPtr.new (Heap.empty : Heap Nat) 3).1 3).2
      = some (decide ((3 : Nat) = 3)) ∧
      (SmartPtr.eq (SmartPtr.new (SmartPtr.new (Heap.empty : Heap Nat) 3).1 3).1
          (SmartPtr.new (Heap.empty : Heap Nat) 3).2
          (SmartPtr.new (SmartPtr.new (Heap.empty : Heap Nat) 3).1 3).2
        = some true ↔ (3 : Nat) = 3)) :=
  ⟨⟨by decide, by decide⟩,
    c8_eq_delegates_to_payload
      (SmartPtr.new (SmartPtr.new (Heap.empty : Heap Nat) 3).1 3).1
      (SmartPtr.new (Heap.empty : Heap Nat) 3).2
      (SmartPtr.new (SmartPtr.new (Heap.empty : Heap Nat) 3).1 3).2
      3 3 (by decide) (by decide)⟩

end RcModel

/-- C6 (Scenario C): in the spec's mature design, `localize()` called on the
single handle obtained from `new(v)` (counter = 1) consumes the handle, sets
the shared extracted flag, and returns `v` by value; the consuming handle's
teardown then frees the counter cell (and the flag cell) while the payload
allocation, already torn down by the extraction, is freed exactly once and
not a second time. -/
theorem c6_localize_scenario {T : Type} (v : T) :
    (Mature.localize (Mature.new (Mature.MHeap.empty : Mature.MHeap T) v).1
        (Mature.new (Mature.MHeap.empty : Mature.MHeap T) v).2).1 = some v ∧
    (Mature.localize (Mature.new (Mature.MHeap.empty : Mature.MHeap T) v).1
        (Mature.new (Mature.MHeap.empty : Mature.MHeap T) v).2).2.counterCell
        (Mature.new (Mature.MHeap.empty : Mature.MHeap T) v).2 = some .freed ∧
    (Mature.localize (Mature.new (Mature.MHeap.empty : Mature.MHeap T) v).1
        (Mature.new (Mature.MHeap.empty : Mature.MHeap T) v).2).2.flagCell
        (Mature.new (Mature.MHeap.empty : Mature.MHeap T) v).2 = some .freed ∧
    (Mature.localize (Mature.new (Mature.MHeap.empty : Mature.MHeap T) v).1
        (Mature.new (Mature.MHeap.empty : Mature.MHeap T) v).2).2.payloadCell
        (Mature.new (Mature.MHeap.empty : Mature.MHeap T) v).2 = some .freed ∧
    (Mature.localize (Mature.new (Mature.MHeap.empty : Mature.MHeap T) v).1
        (Mature.new (Mature.MHeap.empty : Mature.MHeap T) v).2).2.frees = 1 :=
  ⟨rfl, rfl, rfl, rfl, rfl⟩

/-- C9: `clear()` resets a `ConstPtr` or `MutPtr` wrapper to the null address
(`null()` reads true afterwards) and writes no memory: the pointed-to value is
unchanged and the view through every other wrapper, whatever address it
aliases, is unchanged. -/
theorem c9_clear_nulls_and_frames {T : Type} (p q : LibRs.ConstPtr)
    (r s : LibRs.MutPtr) (m : Memory T) :
    ((p.clear m).1.null = true ∧ (p.clear m).2 = m ∧
      LibRs.ConstPtr.deref (p.clear m).2 q = LibRs.ConstPtr.deref m q) ∧
    ((r.clear m).1.null = true ∧ (r.clear m).2 = m ∧
      LibRs.MutPtr.deref (r.clear m).2 s = LibRs.MutPtr.deref m s) :=
  ⟨⟨rfl, rfl, rfl⟩, ⟨rfl, rfl, rfl⟩⟩

/-- C10: the `ConstPtr` / `MutPtr` of src/ptr.rs and of src/src/lib.rs are
behaviorally equivalent on their common operations: under the evident
correspondence, default, new, raw, null (comparison of the address against
the null pointer versus `is_null`), clone/copy, dereference, and the
`MutPtr`-to-`ConstPtr` conversion all produce identical results. -/
theorem c10_wrapper_equivalence {T : Type} (a : Nat) (p : PtrRs.ConstPtr)
    (q : PtrRs.MutPtr) (m : Memory T) :
    PtrRs.ConstPtr.default.toLib = LibRs.ConstPtr.default ∧
    (PtrRs.ConstPtr.new a).toLib = LibRs.ConstPtr.new a ∧
    p.toLib.raw = p.raw ∧
    p.toLib.null = p.null ∧
    p.clone.toLib = p.toLib.clone ∧
    LibRs.ConstPtr.deref m p.toLib = PtrRs.ConstPtr.deref m p ∧
    PtrRs.MutPtr.default.toLib = LibRs.MutPtr.default ∧
    (PtrRs.MutPtr.new a).toLib = LibRs.MutPtr.new a ∧
    q.toLib.raw = q.raw ∧
    q.toLib.null = q.null ∧
    q.clone.toLib = q.toLib.clone ∧
    LibRs.MutPtr.deref m q.toLib = PtrRs.MutPtr.deref m q ∧
    (PtrRs.ConstPtr.fromMut q).toLib = LibRs.ConstPtr.fromMut q.toLib :=
  ⟨rfl, rfl, rfl, rfl, rfl, rfl, rfl, rfl, rfl, rfl, rfl, rfl, rfl⟩
